import Mathlib

/-!
Verification of the task-execution substrate of the chat-with-youtube
repository: the worker pool (src/src/utils/workerPool.ts), the item-based
batch processor (src/src/lib/youtube/batchProcessor.ts), the chunk-based
batch processor (the BatchProcessor with processChunkWithRetry), the generic
Cache (the class with enabled/maxSize/ttl options) and the CacheManager of
src/src/utils/smartCorrection.ts.  Every definition is a shallow embedding
of the corresponding TypeScript code; the theorems settle the specified
properties against these embeddings.  Promises are modelled by explicit
Except/Option results, wall-clock timestamps by natural numbers, and the
awaits performed by retry loops by the explicit list of delays awaited.
-/

namespace YTBatch

/-- Per-run counters of the item-based BatchProcessor (interface
ProcessingMetrics of src/src/lib/youtube/batchProcessor.ts; the
startTime/endTime fields carry no claim content and are not modelled). -/
structure Metrics where
  totalItems : Nat
  processedItems : Nat
  failedItems : Nat
  retries : Nat
deriving Repr, DecidableEq

/-- Constructor options of BatchProcessor, already resolved with the `??`
defaults of the constructor (batchSize 10, maxRetries 3, retryDelay 1000,
maxConcurrent 5). -/
structure Config where
  batchSize : Nat
  maxRetries : Nat
  retryDelay : Nat
  maxConcurrent : Nat
deriving Repr, DecidableEq

def defaultConfig : Config := ⟨10, 3, 1000, 5⟩

/-- BatchProcessor.processWithRetry.  The per-item processor promise is
modelled as a deterministic outcome function of the attempt number
(`fn item attempt = true` means that attempt resolves).  The result is the
updated run metrics, whether the item promise resolved (false = the final
error was rethrown), and the list of delays awaited before re-attempts:
the source awaits a flat `this.retryDelay` before every re-attempt. -/
def processWithRetry (fn : α → Nat → Bool) (maxRetries retryDelay : Nat)
    (item : α) (retryCount : Nat) (m : Metrics) : Metrics × Bool × List Nat :=
  if fn item retryCount then
    ({ m with processedItems := m.processedItems + 1 }, true, [])
  else if h : retryCount < maxRetries then
    let r := processWithRetry fn maxRetries retryDelay item (retryCount + 1)
      { m with retries := m.retries + 1 }
    (r.1, r.2.1, retryDelay :: r.2.2)
  else
    ({ m with failedItems := m.failedItems + 1 }, false, [])
termination_by maxRetries + 1 - retryCount
decreasing_by omega

/-- BatchProcessor.createBatches, and equally the maxConcurrent-sized
slicing loop of process.  Returns none when the source loop diverges
(step size 0 with a nonempty list). -/
def createBatches (n : Nat) (items : List α) : Option (List (List α)) :=
  match items with
  | [] => some []
  | x :: xs =>
    if h0 : n = 0 then none
    else
      match createBatches n ((x :: xs).drop n) with
      | some bs => some ((x :: xs).take n :: bs)
      | none => none
termination_by items.length
decreasing_by
  simp only [List.length_drop, List.length_cons]
  omega

/-- Promise.all of BatchProcessor.processBatch: every item of the batch runs
its full retry chain against the shared metrics; the batch promise rejects
(second component false) when any item promise rejected. -/
def processBatch (fn : α → Nat → Bool) (cfg : Config) (batch : List α)
    (acc : Metrics × Bool) : Metrics × Bool :=
  batch.foldl (fun acc item =>
    let r := processWithRetry fn cfg.maxRetries cfg.retryDelay item 0 acc.1
    (r.1, acc.2 && r.2.1)) acc

/-- One maxConcurrent-sized group of batches awaited together by
`await Promise.all(currentBatches.map(...))` in process. -/
def processGroup (fn : α → Nat → Bool) (cfg : Config) (g : List (List α))
    (m : Metrics) : Metrics × Bool :=
  g.foldl (fun acc b => processBatch fn cfg b acc) (m, true)

/-- The group loop of BatchProcessor.process: groups are awaited in order,
and a rejected Promise.all exits the loop, so later groups never start. -/
def processGroups (fn : α → Nat → Bool) (cfg : Config) :
    List (List (List α)) → Metrics → Metrics × Bool
  | [], m => (m, true)
  | g :: gs, m =>
    let r := processGroup fn cfg g m
    if r.2 then processGroups fn cfg gs r.1 else (r.1, false)

/-- BatchProcessor.process: initialises the run metrics for the batch id,
splits the items into batches and the batches into concurrent groups, and
drives the groups.  `some (m, true)` means the promise resolved with final
metrics m, `some (m, false)` that it rejected with metrics m recorded for
the batch id, `none` that the slicing loops diverge (step size 0). -/
def process (fn : α → Nat → Bool) (cfg : Config) (items : List α) :
    Option (Metrics × Bool) :=
  let m0 : Metrics := ⟨items.length, 0, 0, 0⟩
  match createBatches cfg.batchSize items with
  | none => none
  | some batches =>
    match createBatches cfg.maxConcurrent batches with
    | none => none
    | some groups => some (processGroups fn cfg groups m0)

end YTBatch

namespace ChunkBatch

/-- Metrics of the chunk-based BatchProcessor (totalChunks /
processedChunks / failedChunks / retryCount; the timing fields carry no
claim content and are not modelled). -/
structure Metrics where
  totalChunks : Nat
  processedChunks : Nat
  failedChunks : Nat
  retryCount : Nat
deriving Repr, DecidableEq

/-- BatchProcessor.processChunkWithRetry of the chunk-based processor:
on failure it awaits `retryDelay * 2 ^ retryCount` and recurses; exhausting
maxRetries increments failedChunks and returns false instead of throwing.
The retryCount metric is not touched by this function in the source. -/
def processChunkWithRetry (fn : α → Nat → Bool) (maxRetries retryDelay : Nat)
    (chunk1 : α) (retryCount : Nat) (m : Metrics) : Metrics × Bool × List Nat :=
  if fn chunk1 retryCount then
    ({ m with processedChunks := m.processedChunks + 1 }, true, [])
  else if h : retryCount < maxRetries then
    let r := processChunkWithRetry fn maxRetries retryDelay chunk1 (retryCount + 1) m
    (r.1, r.2.1, retryDelay * 2 ^ retryCount :: r.2.2)
  else
    ({ m with failedChunks := m.failedChunks + 1 }, false, [])
termination_by maxRetries + 1 - retryCount
decreasing_by omega

end ChunkBatch

namespace GenCache

/-- CacheEntry of the generic Cache: value plus insertion timestamp. -/
structure Entry (V : Type) where
  value : V
  timestamp : Nat
deriving Repr, DecidableEq

/-- The generic Cache class: the JS Map is modelled as a key-unique
association list in insertion order, together with the constructor options
(enabled ?? true, maxSize ?? 1000, ttl ?? 86400000 ms). -/
structure CacheState (V : Type) where
  entries : List (Nat × Entry V)
  enabled : Bool
  maxSize : Nat
  ttl : Nat
deriving Repr, DecidableEq

/-- Map.prototype.get: the entry stored under k, if any. -/
def mapFind (es : List (Nat × Entry V)) (k : Nat) : Option (Entry V) :=
  (es.find? (fun p => p.1 == k)).map Prod.snd

/-- Map.prototype.set: replacing an existing key keeps its position in the
iteration order, a new key is appended at the end. -/
def mapSet (es : List (Nat × Entry V)) (k : Nat) (e : Entry V) :
    List (Nat × Entry V) :=
  if es.any (fun p => p.1 == k) then
    es.map (fun p => if p.1 == k then (k, e) else p)
  else
    es ++ [(k, e)]

/-- Map.prototype.delete of the (unique) entry stored under k. -/
def mapDelete (es : List (Nat × Entry V)) (k : Nat) : List (Nat × Entry V) :=
  es.eraseP (fun p => p.1 == k)

/-- Cache.get at wall-clock time `now`: disabled caches always miss; an
entry older than ttl is deleted and reported as a miss.  Returns the result
together with the state after the call. -/
def get (c : CacheState V) (now : Nat) (k : Nat) : Option V × CacheState V :=
  if c.enabled then
    match mapFind c.entries k with
    | none => (none, c)
    | some e =>
      if c.ttl < now - e.timestamp then
        (none, { c with entries := mapDelete c.entries k })
      else
        (some e.value, c)
  else
    (none, c)

/-- The `while (this.cache.size >= this.maxSize)` eviction loop of
Cache.set: repeatedly deletes the oldest (first inserted) key.  When
maxSize = 0 the source loop never terminates (deleting an undefined key
leaves the empty map empty), modelled as none. -/
def evictOldest (maxSize : Nat) (es : List (Nat × Entry V)) :
    Option (List (Nat × Entry V)) :=
  if maxSize ≤ es.length then
    match es with
    | [] => none
    | _ :: rest => evictOldest maxSize rest
  else
    some es
termination_by es.length

/-- Cache.set at wall-clock time `now`: a no-op when disabled, otherwise
evicts oldest entries while the map is full and stores the entry. -/
def set (c : CacheState V) (now : Nat) (k : Nat) (v : V) :
    Option (CacheState V) :=
  if c.enabled then
    match evictOldest c.maxSize c.entries with
    | none => none
    | some es => some { c with entries := mapSet es k ⟨v, now⟩ }
  else
    some c

end GenCache

namespace CacheMgr

/-- A value stored in the NodeCache of the CacheManager, abstracted to the one
field cleanCache inspects: the `_accessCount` property of the value, if it has
one (`none` models a value without the property). -/
structure StoredVal where
  accessCount : Option Nat
deriving Repr, DecidableEq

/-- JS truthiness of `value._accessCount`: present and nonzero. -/
def truthyCount (v : StoredVal) : Option Nat :=
  match v.accessCount with
  | some n => if n = 0 then none else some n
  | none => none

/-- The access patterns map built by cleanCache: every key whose stored
value carries a truthy `_accessCount`, with that count. -/
def accessPatterns (entries : List (Nat × StoredVal)) : List (Nat × Nat) :=
  entries.filterMap (fun p => (truthyCount p.2).map (fun n => (p.1, n)))

/-- The ascending comparator `(a, b) => a[1] - b[1]` used by cleanCache. -/
def leCount (a b : Nat × Nat) : Prop := a.2 ≤ b.2

instance : DecidableRel leCount := fun a b => inferInstanceAs (Decidable (a.2 ≤ b.2))

instance : IsTotal (Nat × Nat) leCount := ⟨fun a b => Nat.le_total a.2 b.2⟩

instance : IsTrans (Nat × Nat) leCount := ⟨fun _ _ _ h1 h2 => Nat.le_trans h1 h2⟩

/-- The keys cleanCache deletes: the bottom `Math.floor(0.3 * n)` of the
access-pattern keys sorted by ascending access count (`0.3 * n` embedded as
the exact rational `3 * n / 10`). -/
def removedKeys (entries : List (Nat × StoredVal)) : List Nat :=
  let sortedKeys := (List.insertionSort leCount (accessPatterns entries)).map Prod.fst
  sortedKeys.take (3 * sortedKeys.length / 10)

/-- CacheManager.cleanCache over the entries of its NodeCache (keys of the
JS cache are unique): a no-op at or below 70 % of maxKeys (`maxKeys * 0.7`
embedded as the exact rational comparison `10 * length ≤ 7 * maxKeys`),
otherwise one pass deleting the removedKeys. -/
def cleanCache (maxKeys : Nat) (entries : List (Nat × StoredVal)) :
    List (Nat × StoredVal) :=
  if 10 * entries.length ≤ 7 * maxKeys then
    entries
  else
    entries.filter (fun p => !((removedKeys entries).contains p.1))

/-- JSON values, as far as CacheManager.generateKey serializes them.
JSON.stringify throws a TypeError when it reaches a BigInt. -/
inductive JVal where
  | jnull
  | jbool (b : Bool)
  | jnum (n : Int)
  | jstr (s : String)
  | jbigint (n : Int)
  | jobj (fields : List (String × JVal))
deriving Repr

mutual

/-- Whether JSON.stringify of this value throws (it reaches a BigInt). -/
def hasBigInt : JVal → Bool
  | .jbigint _ => true
  | .jobj fs => hasBigIntFields fs
  | _ => false

def hasBigIntFields : List (String × JVal) → Bool
  | [] => false
  | (_, v) :: rest => hasBigInt v || hasBigIntFields rest

end

/-- CacheManager.generateKey: the sha256 hex digest of
`JSON.stringify(\x7b query, filters \x7d)`.  JSON.stringify throws on BigInt
values; the digest itself is modelled by the serialized pair. -/
def generateKey (query : String) (filters : JVal) :
    Except String (String × JVal) :=
  if hasBigInt filters then
    .error ("TypeError: Do not know how to serialize a BigInt")
  else
    .ok (query, filters)

/-- CacheManager.get.  The fallible internal operations are parameters:
`lookup` is `this.cache.get(key)`, `metaUpdate` the metadata
read-increment-write performed on a hit, `store` the
`this.cache.set(key, value, ttl)` + metadata write performed after a fetch,
and `fetch` the optional fetchFunction (none = no fetchFunction argument).
generateKey runs before the try block, so its fault propagates; every fault
inside the try block is caught and turned into a null result. -/
def cmGet (query : String) (filters : JVal)
    (lookup : String × JVal → Except String (Option V))
    (metaUpdate : String × JVal → Except String Unit)
    (store : String × JVal → V → Except String Unit)
    (fetch : Option (Except String V)) : Except String (Option V) :=
  match generateKey query filters with
  | .error e => .error e
  | .ok key =>
    .ok (match lookup key with
      | .error _ => none
      | .ok (some v) =>
        match metaUpdate key with
        | .error _ => none
        | .ok _ => some v
      | .ok none =>
        match fetch with
        | none => none
        | some (.error _) => none
        | some (.ok v) =>
          match store key v with
          | .error _ => none
          | .ok _ => some v)

end CacheMgr

namespace Pool

/-- A WorkerTask as it sits in the taskQueue of the pool: its random id and its
task-type tag (the resolve/reject callbacks and the startTime are the
promise machinery and latency bookkeeping, not modelled). -/
structure Task where
  id : Nat
  ttype : Nat
deriving Repr, DecidableEq

/-- WorkerPool options after the constructor applied its `||` defaults,
plus the workerScripts registry (`registered ty` = a script is registered
for task type ty). -/
structure Config where
  minWorkers : Nat
  maxWorkers : Nat
  registered : Nat → Bool

/-- JS `x || d` on the numeric options: undefined and 0 both fall back to
the default. -/
def jsOr (x : Option Nat) (d : Nat) : Nat :=
  match x with
  | none => d
  | some n => if n = 0 then d else n

/-- The option resolution of the constructor: minWorkers || 2, maxWorkers || 4. -/
def mkConfig (mo Mo : Option Nat) (reg : Nat → Bool) : Config :=
  ⟨jsOr mo 2, jsOr Mo 4, reg⟩

/-- The WorkerPool state.  `workers`, `idleWorkers` and `taskQueue` are the
fields of the class (workers identified by creation number); the remaining
fields are observers of the surrounding runtime: `executing` maps a worker
to the task its thread is currently running (set by postMessage, cleared
when the thread posts its completion message), `busy` lists the workers
that have been dispatched a task and have not yet been returned to the idle
set, `timers` the armed per-dispatch timeout callbacks, and `alive` the
created Worker threads not yet terminated. -/
structure PoolState where
  workers : List Nat
  idleWorkers : List Nat
  taskQueue : List Task
  nextWorkerId : Nat
  executing : List (Nat × Nat)
  busy : List Nat
  timers : List (Nat × Nat)
  alive : List Nat
  completedTasks : Nat
  failedTasks : Nat
deriving Repr, DecidableEq

def emptyState : PoolState := ⟨[], [], [], 0, [], [], [], [], 0, 0⟩

/-- WorkerPool.createWorker: spawns a fresh Worker, attaches its message /
error / exit handlers (modelled as the message / timeout events below) and
pushes it onto idleWorkers — and onto nothing else: the `workers` field is
never written. -/
def createWorker (s : PoolState) : PoolState :=
  let w := s.nextWorkerId
  { s with idleWorkers := s.idleWorkers ++ [w],
           alive := s.alive ++ [w],
           nextWorkerId := w + 1 }

/-- WorkerPool.initialize: minWorkers eager createWorker calls (the
periodic cleanupIdleWorkers timer is modelled by cleanup events). -/
def initState (cfg : Config) : PoolState :=
  (List.range cfg.minWorkers).foldl (fun s _ => createWorker s) emptyState

/-- WorkerPool.removeWorker: splice the worker out of `workers` and out of
`idleWorkers` (first occurrence each). -/
def removeWorker (w : Nat) (s : PoolState) : PoolState :=
  { s with workers := s.workers.erase w, idleWorkers := s.idleWorkers.erase w }

/-- The task the thread of the given worker is currently running, if any. -/
def execOf (s : PoolState) (w : Nat) : Option Nat :=
  (s.executing.find? (fun p => p.1 == w)).map Prod.snd

/-- WorkerPool.processNextTask: nothing happens without a queued task and
an idle worker.  Otherwise it reads `taskQueue[0]` — without removing it
from the queue — and pops the last idle worker.  With a registered script
it posts the task to the worker and arms a timeout timer; with no
registered script it rejects the task and returns, the popped worker never
being pushed back. -/
def processNextTask (cfg : Config) (s : PoolState) : PoolState :=
  match s.taskQueue, s.idleWorkers with
  | [], _ => s
  | _ :: _, [] => s
  | t :: _, i :: is =>
    let w := (i :: is).getLast (List.cons_ne_nil i is)
    let idle1 := (i :: is).dropLast
    if cfg.registered t.ttype then
      { s with idleWorkers := idle1,
               executing := (w, t.id) :: s.executing,
               busy := w :: s.busy,
               timers := s.timers ++ [(w, t.id)] }
    else
      { s with idleWorkers := idle1 }

/-- WorkerPool.executeTask: push the task onto the queue; if no worker is
idle and `workers.length < maxWorkers`, create a worker (the async call
runs synchronously up to its return); then processNextTask. -/
def executeTask (cfg : Config) (t : Task) (s : PoolState) : PoolState :=
  let s1 := { s with taskQueue := s.taskQueue ++ [t] }
  let s2 :=
    if s1.idleWorkers = [] ∧ s1.workers.length < cfg.maxWorkers then
      createWorker s1
    else s1
  processNextTask cfg s2

/-- The message handler attached to a worker: the thread of worker w finishes the
task it was posted and reports `(taskId, result | error)`.  If that task id
is still in the queue, the matching metrics counter is bumped, the task is
resolved or rejected and filtered out of the queue, the worker is pushed
back onto idleWorkers and processNextTask runs; otherwise (the task was
already timed out or resolved by another worker) nothing happens and the
worker is never returned to the idle set. -/
def workerMessage (cfg : Config) (w : Nat) (isError : Bool) (s : PoolState) :
    PoolState :=
  match execOf s w with
  | none => s
  | some tid =>
    let s0 := { s with executing := s.executing.filter (fun p => p.1 != w) }
    if (s0.taskQueue.find? (fun t => t.id == tid)).isSome then
      let s1 :=
        { s0 with
          completedTasks := if isError then s0.completedTasks else s0.completedTasks + 1,
          failedTasks := if isError then s0.failedTasks + 1 else s0.failedTasks,
          taskQueue := s0.taskQueue.filter (fun t => t.id != tid),
          idleWorkers := s0.idleWorkers ++ [w],
          busy := s0.busy.erase w }
      processNextTask cfg s1
    else s0

/-- WorkerPool.handleWorkerError: remove the worker and create a
replacement. -/
def handleWorkerError (w : Nat) (s : PoolState) : PoolState :=
  createWorker (removeWorker w s)

/-- The timeout callback armed by processNextTask for a dispatch of task
tid to worker w, firing at some later point: if the task is still queued it
is spliced out and rejected, failedTasks is bumped and the worker is torn
down and replaced; otherwise nothing happens.  Each armed timer fires at
most once. -/
def timeoutFire (w tid : Nat) (s : PoolState) : PoolState :=
  if (w, tid) ∈ s.timers then
    let s0 := { s with timers := s.timers.erase (w, tid) }
    if (s0.taskQueue.find? (fun t => t.id == tid)).isSome then
      handleWorkerError w
        { s0 with taskQueue := s0.taskQueue.eraseP (fun t => t.id == tid),
                  failedTasks := s0.failedTasks + 1 }
    else s0
  else s

/-- `worker.terminate()`. -/
def terminateWorker (w : Nat) (s : PoolState) : PoolState :=
  { s with alive := s.alive.erase w }

/-- The `while (workers.length > minWorkers && idleWorkers.length > 0)`
loop of cleanupIdleWorkers: pop the last idle worker, terminate it, remove
it.  The fuel is the idle count, an upper bound on the iterations. -/
def cleanupLoop (cfg : Config) : Nat → PoolState → PoolState
  | 0, s => s
  | fuel + 1, s =>
    match s.idleWorkers with
    | [] => s
    | i :: is =>
      if cfg.minWorkers < s.workers.length then
        let w := (i :: is).getLast (List.cons_ne_nil i is)
        cleanupLoop cfg fuel
          (removeWorker w (terminateWorker w { s with idleWorkers := (i :: is).dropLast }))
      else s

/-- WorkerPool.cleanupIdleWorkers (the periodic idle sweep). -/
def cleanupIdleWorkers (cfg : Config) (s : PoolState) : PoolState :=
  cleanupLoop cfg s.idleWorkers.length s

/-- WorkerPool.shutdown, once its polling loop has seen the task queue
empty: `await Promise.all(this.workers.map(w => w.terminate()))`, then both
lists are cleared.  Only the members of `workers` are terminated. -/
def shutdown (s : PoolState) : PoolState :=
  { s with alive := s.workers.foldl (fun a w => a.erase w) s.alive,
           workers := [],
           idleWorkers := [] }

/-- The metrics snapshot of getMetrics (the latency fields carry no claim
content and are not modelled).  activeWorkers is computed over the
integers, as in JS. -/
structure Metrics where
  activeWorkers : Int
  idleWorkers : Nat
  completedTasks : Nat
  failedTasks : Nat
deriving Repr, DecidableEq

def getMetrics (s : PoolState) : Metrics :=
  ⟨(s.workers.length : Int) - (s.idleWorkers.length : Int),
    s.idleWorkers.length, s.completedTasks, s.failedTasks⟩

/-- The events that drive a pool: a task submission, a worker thread
posting its completion message (isError = the script threw), an armed
timeout timer firing, and the periodic idle sweep. -/
inductive Event where
  | exec (t : Task)
  | message (w : Nat) (isError : Bool)
  | timeout (w tid : Nat)
  | cleanup
deriving Repr, DecidableEq

def step (cfg : Config) (s : PoolState) : Event → PoolState
  | .exec t => executeTask cfg t s
  | .message w e => workerMessage cfg w e s
  | .timeout w tid => timeoutFire w tid s
  | .cleanup => cleanupIdleWorkers cfg s

/-- The pool state reached from construction by a sequence of events. -/
def run (cfg : Config) (evs : List Event) : PoolState :=
  evs.foldl (step cfg) (initState cfg)

/-- The inductive invariant of reachable pool states: the `workers` field is
never written, the idle list holds distinct workers none of which is
currently executing a task, and workers named anywhere were created. -/
def Inv (s : PoolState) : Prop :=
  s.workers = [] ∧
  s.idleWorkers.Nodup ∧
  (∀ w ∈ s.idleWorkers, ∀ p ∈ s.executing, p.1 ≠ w) ∧
  (∀ w ∈ s.idleWorkers, w < s.nextWorkerId) ∧
  (∀ p ∈ s.executing, p.1 < s.nextWorkerId)

end Pool

namespace YTBatch

theorem processWithRetry_charge (fn : α → Nat → Bool) (mr rd : Nat) (item : α)
    (rc : Nat) (m : Metrics) :
    (processWithRetry fn mr rd item rc m).1.processedItems
        + (processWithRetry fn mr rd item rc m).1.failedItems
      = m.processedItems + m.failedItems + 1 ∧
    (processWithRetry fn mr rd item rc m).1.totalItems = m.totalItems := by
  induction rc, m using processWithRetry.induct fn mr rd item with
  | case1 rc m hfn =>
    rw [processWithRetry, if_pos hfn]
    exact ⟨by simp; omega, rfl⟩
  | case2 rc m hfn hlt ih =>
    rw [processWithRetry, if_neg hfn, dif_pos hlt]
    simpa using ih
  | case3 rc m hfn hlt =>
    rw [processWithRetry, if_neg hfn, dif_neg hlt]
    exact ⟨by simp; omega, rfl⟩

theorem processBatch_charge (fn : α → Nat → Bool) (cfg : Config) :
    ∀ (b : List α) (m : Metrics) (ok : Bool),
      (processBatch fn cfg b (m, ok)).1.processedItems
          + (processBatch fn cfg b (m, ok)).1.failedItems
        = m.processedItems + m.failedItems + b.length ∧
      (processBatch fn cfg b (m, ok)).1.totalItems = m.totalItems := by
  intro b
  induction b with
  | nil =>
    intro m ok
    exact ⟨rfl, rfl⟩
  | cons x xs ih =>
    intro m ok
    have hx := processWithRetry_charge fn cfg.maxRetries cfg.retryDelay x 0 m
    have hxs := ih (processWithRetry fn cfg.maxRetries cfg.retryDelay x 0 m).1
      (ok && (processWithRetry fn cfg.maxRetries cfg.retryDelay x 0 m).2.1)
    simp only [processBatch, List.foldl_cons] at *
    constructor
    · rw [hxs.1]
      simp only [List.length_cons]
      omega
    · rw [hxs.2, hx.2]

theorem processGroup_fold_charge (fn : α → Nat → Bool) (cfg : Config) :
    ∀ (g : List (List α)) (m : Metrics) (ok : Bool),
      ((g.foldl (fun acc b => processBatch fn cfg b acc) (m, ok)).1.processedItems
          + (g.foldl (fun acc b => processBatch fn cfg b acc) (m, ok)).1.failedItems
        = m.processedItems + m.failedItems + (g.map List.length).sum) ∧
      (g.foldl (fun acc b => processBatch fn cfg b acc) (m, ok)).1.totalItems
        = m.totalItems := by
  intro g
  induction g with
  | nil =>
    intro m ok
    exact ⟨by simp, rfl⟩
  | cons b bs ih =>
    intro m ok
    have hb := processBatch_charge fn cfg b m ok
    have hbs := ih (processBatch fn cfg b (m, ok)).1 (processBatch fn cfg b (m, ok)).2
    simp only [List.foldl_cons] at *
    constructor
    · rw [hbs.1, hb.1]
      simp only [List.map_cons, List.sum_cons]
      omega
    · rw [hbs.2, hb.2]

theorem processGroup_charge (fn : α → Nat → Bool) (cfg : Config)
    (g : List (List α)) (m : Metrics) :
    (processGroup fn cfg g m).1.processedItems + (processGroup fn cfg g m).1.failedItems
        = m.processedItems + m.failedItems + (g.map List.length).sum ∧
    (processGroup fn cfg g m).1.totalItems = m.totalItems :=
  processGroup_fold_charge fn cfg g m true

theorem processGroups_true_charge (fn : α → Nat → Bool) (cfg : Config) :
    ∀ (gs : List (List (List α))) (m m' : Metrics),
      processGroups fn cfg gs m = (m', true) →
        m'.processedItems + m'.failedItems
          = m.processedItems + m.failedItems
            + (gs.map (fun g => (g.map List.length).sum)).sum ∧
        m'.totalItems = m.totalItems := by
  intro gs
  induction gs with
  | nil =>
    intro m m' h
    simp only [processGroups, Prod.mk.injEq] at h
    rw [← h.1]
    exact ⟨by simp, rfl⟩
  | cons g gs ih =>
    intro m m' h
    simp only [processGroups] at h
    by_cases h2 : (processGroup fn cfg g m).2 = true
    · rw [if_pos h2] at h
      have hg := processGroup_charge fn cfg g m
      have hrec := ih (processGroup fn cfg g m).1 m' h
      constructor
      · rw [hrec.1, hg.1]
        simp only [List.map_cons, List.sum_cons]
        omega
      · rw [hrec.2, hg.2]
    · rw [if_neg h2] at h
      simp only [Prod.mk.injEq] at h
      exact absurd h.2 (by simp)

theorem createBatches_flatten (n : Nat) (items : List α) :
    ∀ bs, createBatches n items = some bs → bs.flatten = items := by
  induction items using createBatches.induct n with
  | case1 =>
    intro bs h
    simp only [createBatches] at h
    rw [← Option.some.inj h]
    rfl
  | case2 x xs h0 =>
    intro bs h
    simp only [createBatches, dif_pos h0] at h
    exact Option.noConfusion h
  | case3 x xs h0 bs0 hrec ih =>
    intro bs h
    simp only [createBatches, dif_neg h0, hrec] at h
    rw [← Option.some.inj h]
    simp only [List.flatten_cons, ih bs0 hrec]
    exact List.take_append_drop n (x :: xs)
  | case4 x xs h0 hrec ih =>
    intro bs h
    simp only [createBatches, dif_neg h0, hrec] at h
    exact Option.noConfusion h

/-- C3: for every item collection and perItemFn, once process() resolves the
run metrics satisfy processedItems + failedItems = totalItems, and an
empty collection resolves immediately with all counters zero.  (With an
item that fails every attempt the promise rejects instead of resolving —
that behaviour is the subject of C4.) -/
theorem c3_resolved_metrics_complete (fn : α → Nat → Bool) (cfg : Config)
    (items : List α) :
    (∀ m : Metrics, process fn cfg items = some (m, true) →
        m.processedItems + m.failedItems = m.totalItems) ∧
    (items = [] → process fn cfg items = some (⟨0, 0, 0, 0⟩, true)) := by
  constructor
  · intro m h
    unfold process at h
    cases hb : createBatches cfg.batchSize items with
    | none =>
      rw [hb] at h
      exact Option.noConfusion h
    | some batches =>
      rw [hb] at h
      dsimp only at h
      cases hg : createBatches cfg.maxConcurrent batches with
      | none =>
        rw [hg] at h
        exact Option.noConfusion h
      | some groups =>
        rw [hg] at h
        dsimp only at h
        have hrun : processGroups fn cfg groups ⟨items.length, 0, 0, 0⟩ = (m, true) :=
          Option.some.inj h
        have hc := processGroups_true_charge fn cfg groups ⟨items.length, 0, 0, 0⟩ m hrun
        have hsum : (groups.map (fun g => (g.map List.length).sum)).sum
            = items.length := by
          have h1 : (groups.map (fun g => g.map List.length)).flatten
              = batches.map List.length := by
            rw [← List.map_flatten, createBatches_flatten cfg.maxConcurrent batches groups hg]
          calc (groups.map (fun g => (g.map List.length).sum)).sum
              = ((groups.map (fun g => g.map List.length)).map List.sum).sum := by
                rw [List.map_map]; rfl
            _ = (groups.map (fun g => g.map List.length)).flatten.sum := by
                rw [List.sum_flatten]
            _ = (batches.map List.length).sum := by rw [h1]
            _ = batches.flatten.length := (List.length_flatten batches).symm
            _ = items.length := by
                rw [createBatches_flatten cfg.batchSize items batches hb]
        rw [hc.2, hc.1, hsum]
        simp
  · intro h
    subst h
    simp [process, createBatches, processGroups]

/-- C4 counterexample: with batchSize 1, maxRetries 3, maxConcurrent 1 and
two items of which the first fails every attempt, process() rejects
(second component false) after recording the failure, and the second item
never reaches a terminal state: the final metrics have
processedItems + failedItems = 1 ≠ 2 = totalItems, refuting the claim that
the run completes with partial success driving every other item to a
terminal state. -/
theorem c4_failing_item_rejects_run :
    process (fun (i : Nat) _ => i == 1) ⟨1, 3, 1000, 1⟩ [0, 1]
        = some (⟨2, 0, 1, 3⟩, false) ∧
    (⟨2, 0, 1, 3⟩ : Metrics).processedItems + (⟨2, 0, 1, 3⟩ : Metrics).failedItems
        ≠ (⟨2, 0, 1, 3⟩ : Metrics).totalItems := by
  constructor
  · simp [process, createBatches, processGroups, processGroup, processBatch,
      processWithRetry]
  · decide

theorem processWithRetry_allFail (fn : α → Nat → Bool) (mr rd : Nat) (item : α)
    (hfn : ∀ a, fn item a = false) :
    ∀ (rc : Nat) (m : Metrics),
      processWithRetry fn mr rd item rc m
        = ({ m with failedItems := m.failedItems + 1, retries := m.retries + (mr - rc) },
           false, List.replicate (mr - rc) rd) := by
  intro rc m
  induction rc, m using processWithRetry.induct fn mr rd item with
  | case1 rc m h =>
    rw [hfn rc] at h
    cases h
  | case2 rc m h hlt ih =>
    rw [processWithRetry, if_neg h, dif_pos hlt]
    simp only [ih]
    have h1 : mr - rc = (mr - (rc + 1)) + 1 := by omega
    rw [h1, List.replicate_succ]
    simp only [Prod.mk.injEq, Metrics.mk.injEq, List.cons.injEq, true_and, and_true]
    omega
  | case3 rc m h hlt =>
    rw [processWithRetry, if_neg h, dif_neg hlt]
    have h0 : mr - rc = 0 := by omega
    rw [h0]
    simp

/-- C4 amended: an item whose perItemFn fails on every attempt has its
failure recorded in the run metrics (failedItems + 1, retries + maxRetries)
— but processWithRetry then rethrows the error, so the enclosing
Promise.all rejects and process() rejects with it: the batch groups after
the one holding the failing item are never started, so the run does not
complete with partial success. -/
theorem c4_exhausted_retries_recorded_then_rethrown :
    (∀ (fn : α → Nat → Bool) (mr rd : Nat) (item : α) (m : Metrics),
        (∀ a, fn item a = false) →
        processWithRetry fn mr rd item 0 m
          = ({ m with failedItems := m.failedItems + 1, retries := m.retries + mr },
             false, List.replicate mr rd)) ∧
    (∀ (fn : α → Nat → Bool) (cfg : Config) (g : List (List α))
        (gs : List (List (List α))) (m m' : Metrics),
        processGroup fn cfg g m = (m', false) →
        processGroups fn cfg (g :: gs) m = (m', false)) := by
  constructor
  · intro fn mr rd item m hfn
    simpa using processWithRetry_allFail fn mr rd item hfn 0 m
  · intro fn cfg g gs m m' h
    simp only [processGroups, h, if_neg]
    simp

/-- C4 witness: the amended theorem applied at maxRetries 2, retryDelay 5,
an always-failing item, and at a group that rejects. -/
theorem c4_exhausted_retries_recorded_then_rethrown_witness :
    processWithRetry (fun (_ : Nat) _ => false) 2 5 0 0 ⟨1, 0, 0, 0⟩
        = (⟨1, 0, 1, 2⟩, false, [5, 5]) ∧
    processGroups (fun (_ : Nat) _ => false) ⟨1, 2, 5, 1⟩ [[[0]], [[1]]] ⟨2, 0, 0, 0⟩
        = (⟨2, 0, 1, 2⟩, false) := by
  constructor
  · exact c4_exhausted_retries_recorded_then_rethrown.1
      (fun _ _ => false) 2 5 0 ⟨1, 0, 0, 0⟩ (fun _ => rfl)
  · refine c4_exhausted_retries_recorded_then_rethrown.2
      (fun _ _ => false) ⟨1, 2, 5, 1⟩ [[0]] [[[1]]] ⟨2, 0, 0, 0⟩ ⟨2, 0, 1, 2⟩ ?_
    simp [processGroup, processBatch, processWithRetry]

/-- C3 witness: the theorem applied to an always-succeeding three-item run
(metrics ⟨3, 3, 0, 0⟩) and to the empty collection. -/
theorem c3_resolved_metrics_complete_witness :
    (⟨3, 3, 0, 0⟩ : Metrics).processedItems + (⟨3, 3, 0, 0⟩ : Metrics).failedItems
        = (⟨3, 3, 0, 0⟩ : Metrics).totalItems ∧
    process (fun (_ : Nat) _ => true) defaultConfig ([] : List Nat)
        = some (⟨0, 0, 0, 0⟩, true) := by
  constructor
  · exact (c3_resolved_metrics_complete (fun (_ : Nat) _ => true) defaultConfig
      [1, 2, 3]).1 ⟨3, 3, 0, 0⟩
      (by simp [process, createBatches, processGroups, processGroup, processBatch,
        processWithRetry, defaultConfig])
  · exact (c3_resolved_metrics_complete (fun (_ : Nat) _ => true) defaultConfig
      ([] : List Nat)).2 rfl

/-- C5 counterexample: with maxRetries 3, retryDelay 1000 and an item that
fails twice then succeeds, BatchProcessor.processWithRetry awaits
[1000, 1000]: the delay before the third attempt is 1000 ms, not the
retryDelay * 2 ^ 1 = 2000 ms the claim asserts. -/
theorem c5_flat_delay_not_exponential :
    (processWithRetry (fun (_ : Nat) a => a == 2) 3 1000 0 0 ⟨1, 0, 0, 0⟩).2.2
        = [1000, 1000] ∧
    (processWithRetry (fun (_ : Nat) a => a == 2) 3 1000 0 0 ⟨1, 0, 0, 0⟩).2.2.get? 1
        ≠ some (1000 * 2 ^ 1) := by
  have h : (processWithRetry (fun (_ : Nat) a => a == 2) 3 1000 0 0
      ⟨1, 0, 0, 0⟩).2.2 = [1000, 1000] := by
    simp [processWithRetry]
  refine ⟨h, ?_⟩
  rw [h]
  decide

theorem processWithRetry_delays_flat (fn : α → Nat → Bool) (mr rd : Nat)
    (item : α) (rc : Nat) (m : Metrics) :
    ∀ d ∈ (processWithRetry fn mr rd item rc m).2.2, d = rd := by
  induction rc, m using processWithRetry.induct fn mr rd item with
  | case1 rc m hfn =>
    rw [processWithRetry, if_pos hfn]
    intro d hd
    simp at hd
  | case2 rc m hfn hlt ih =>
    rw [processWithRetry, if_neg hfn, dif_pos hlt]
    intro d hd
    rcases List.mem_cons.mp hd with h | h
    · exact h
    · exact ih d h
  | case3 rc m hfn hlt =>
    rw [processWithRetry, if_neg hfn, dif_neg hlt]
    intro d hd
    simp at hd

end YTBatch

namespace ChunkBatch

theorem processChunkWithRetry_delays_exp (fn : α → Nat → Bool) (mr rd : Nat)
    (chunk1 : α) (rc : Nat) (m : Metrics) :
    ∀ (i d : Nat),
      (processChunkWithRetry fn mr rd chunk1 rc m).2.2.get? i = some d →
      d = rd * 2 ^ (rc + i) := by
  induction rc, m using processChunkWithRetry.induct fn mr rd chunk1 with
  | case1 rc m hfn =>
    rw [processChunkWithRetry, if_pos hfn]
    intro i d hd
    simp at hd
  | case2 rc m hfn hlt ih =>
    rw [processChunkWithRetry, if_neg hfn, dif_pos hlt]
    intro i d hd
    cases i with
    | zero =>
      simp only [List.get?_cons_zero, Option.some.injEq] at hd
      rw [← hd, Nat.add_zero]
    | succ j =>
      simp only [List.get?_cons_succ] at hd
      have he : rc + (j + 1) = rc + 1 + j := by omega
      rw [he]
      exact ih j d hd
  | case3 rc m hfn hlt =>
    rw [processChunkWithRetry, if_neg hfn, dif_neg hlt]
    intro i d hd
    simp at hd

end ChunkBatch

namespace YTBatch

/-- C5 amended: BatchProcessor.processWithRetry (the perItemFn path) awaits
a constant retryDelay before every re-attempt — with maxRetries 3 and
retryDelay 1000 an item failing twice then succeeding waits 1000 ms twice
and is counted as processed, not failed; the exponential
retryDelay * 2 ^ attempt policy belongs to the chunk-based
BatchProcessor.processChunkWithRetry, where the same scenario waits
1000 ms then 2000 ms before its third, successful attempt. -/
theorem c5_delay_policies {α : Type} :
    (processWithRetry (fun (_ : Nat) a => a == 2) 3 1000 0 0 ⟨1, 0, 0, 0⟩
        = (⟨1, 1, 0, 2⟩, true, [1000, 1000])) ∧
    (ChunkBatch.processChunkWithRetry (fun (_ : Nat) a => a == 2) 3 1000 0 0
        ⟨1, 0, 0, 0⟩ = (⟨1, 1, 0, 0⟩, true, [1000, 2000])) ∧
    (∀ (fn : α → Nat → Bool) (mr rd : Nat) (item : α) (rc : Nat) (m : Metrics),
        ∀ d ∈ (processWithRetry fn mr rd item rc m).2.2, d = rd) ∧
    (∀ (fn : α → Nat → Bool) (mr rd : Nat) (chunk1 : α) (rc : Nat)
        (m : ChunkBatch.Metrics) (i d : Nat),
        (ChunkBatch.processChunkWithRetry fn mr rd chunk1 rc m).2.2.get? i = some d →
        d = rd * 2 ^ (rc + i)) := by
  refine ⟨?_, ?_, ?_, ?_⟩
  · simp [processWithRetry]
  · simp [ChunkBatch.processChunkWithRetry]
  · exact fun fn mr rd item rc m => processWithRetry_delays_flat fn mr rd item rc m
  · exact fun fn mr rd chunk1 rc m =>
      ChunkBatch.processChunkWithRetry_delays_exp fn mr rd chunk1 rc m

/-- C5 witness: the amended theorem applied at the concrete fail-fail-succeed
scenario: the flat-delay clause at the first awaited delay, and the
exponential clause at the second awaited delay of the chunk processor. -/
theorem c5_delay_policies_witness :
    (1000 ∈ (processWithRetry (fun (_ : Nat) a => a == 2) 3 1000 0 0
        ⟨1, 0, 0, 0⟩).2.2 ∧ (1000 : Nat) = 1000) ∧
    ((ChunkBatch.processChunkWithRetry (fun (_ : Nat) a => a == 2) 3 1000 0 0
        ⟨1, 0, 0, 0⟩).2.2.get? 1 = some 2000 ∧ (2000 : Nat) = 1000 * 2 ^ (0 + 1)) := by
  have h1 : (processWithRetry (fun (_ : Nat) a => a == 2) 3 1000 0 0
      ⟨1, 0, 0, 0⟩).2.2 = [1000, 1000] := by
    simp [processWithRetry]
  have h2 : (ChunkBatch.processChunkWithRetry (fun (_ : Nat) a => a == 2) 3 1000 0 0
      ⟨1, 0, 0, 0⟩).2.2 = [1000, 2000] := by
    simp [ChunkBatch.processChunkWithRetry]
  have hmem : 1000 ∈ (processWithRetry (fun (_ : Nat) a => a == 2) 3 1000 0 0
      ⟨1, 0, 0, 0⟩).2.2 := by
    rw [h1]
    decide
  have hget : (ChunkBatch.processChunkWithRetry (fun (_ : Nat) a => a == 2) 3 1000 0 0
      ⟨1, 0, 0, 0⟩).2.2.get? 1 = some 2000 := by
    rw [h2]
    rfl
  refine ⟨⟨hmem, ?_⟩, ⟨hget, ?_⟩⟩
  · exact (c5_delay_policies (α := Nat)).2.2.1 (fun _ a => a == 2) 3 1000 0 0
      ⟨1, 0, 0, 0⟩ 1000 hmem
  · exact (c5_delay_policies (α := Nat)).2.2.2 (fun _ a => a == 2) 3 1000 0 0
      ⟨1, 0, 0, 0⟩ 1 2000 hget

end YTBatch

namespace GenCache

theorem mapFind_replace (k : Nat) (e : Entry V) :
    ∀ es : List (Nat × Entry V), es.any (fun p => p.1 == k) = true →
      mapFind (es.map (fun p => if p.1 == k then (k, e) else p)) k = some e := by
  intro es
  induction es with
  | nil =>
    intro h
    simp at h
  | cons p rest ih =>
    intro h
    by_cases hp : (p.1 == k) = true
    · simp only [List.map_cons, if_pos hp, mapFind]
      rw [List.find?_cons_of_pos]
      · rfl
      · simp
    · simp only [List.map_cons, if_neg hp, mapFind]
      have hrest : rest.any (fun p => p.1 == k) = true := by
        simp only [List.any_cons, Bool.or_eq_true] at h
        rcases h with h | h
        · exact absurd h hp
        · exact h
      rw [List.find?_cons_of_neg]
      · exact ih hrest
      · exact hp

theorem mapFind_append_self (k : Nat) (e : Entry V) :
    ∀ es : List (Nat × Entry V), es.any (fun p => p.1 == k) = false →
      mapFind (es ++ [(k, e)]) k = some e := by
  intro es
  induction es with
  | nil =>
    intro _
    simp only [List.nil_append, mapFind]
    rw [List.find?_cons_of_pos]
    · rfl
    · simp
  | cons p rest ih =>
    intro h
    simp only [List.any_cons, Bool.or_eq_false_iff] at h
    simp only [List.cons_append, mapFind]
    rw [List.find?_cons_of_neg]
    · exact ih h.2
    · simp [h.1]

theorem mapFind_mapSet_self (es : List (Nat × Entry V)) (k : Nat) (e : Entry V) :
    mapFind (mapSet es k e) k = some e := by
  unfold mapSet
  by_cases hany : es.any (fun p => p.1 == k) = true
  · rw [if_pos hany]
    exact mapFind_replace k e es hany
  · rw [if_neg hany]
    exact mapFind_append_self k e es (Bool.eq_false_iff.mpr hany)

theorem mapFind_mapDelete_self (k : Nat) :
    ∀ es : List (Nat × Entry V), (es.map Prod.fst).Nodup →
      mapFind (mapDelete es k) k = none := by
  intro es
  induction es with
  | nil =>
    intro _
    rfl
  | cons p rest ih =>
    intro hnd
    simp only [List.map_cons, List.nodup_cons] at hnd
    by_cases hp : ((fun q : Nat × Entry V => q.1 == k) p) = true
    · simp only [mapDelete, List.eraseP_cons, hp, cond_true]
      have hk : p.1 = k := by simpa using hp
      simp only [mapFind]
      rw [List.find?_eq_none.mpr]
      · rfl
      · intro x hx hxk
        have hx1 : x.1 = k := by simpa using hxk
        exact hnd.1 (hk ▸ hx1 ▸ List.mem_map_of_mem Prod.fst hx)
    · simp only [mapDelete, List.eraseP_cons, hp, cond_false]
      simp only [mapFind]
      rw [List.find?_cons_of_neg]
      · exact ih hnd.2
      · exact hp

/-- C7: on an enabled cache, set(k, v) at time t followed by get(k) at any
time less than the TTL later returns v; and an entry read after its TTL has
elapsed is reported as a miss and removed from the store. -/
theorem c7_roundtrip_and_expiry {V : Type} :
    (∀ (c : CacheState V) (k : Nat) (v : V) (t t' : Nat) (c' : CacheState V),
        c.enabled = true → set c t k v = some c' → t ≤ t' → t' - t < c.ttl →
        (get c' t' k).1 = some v) ∧
    (∀ (c : CacheState V) (k : Nat) (e : Entry V) (t : Nat),
        c.enabled = true → (c.entries.map Prod.fst).Nodup →
        mapFind c.entries k = some e → c.ttl < t - e.timestamp →
        (get c t k).1 = none ∧ mapFind ((get c t k).2).entries k = none) := by
  constructor
  · intro c k v t t' c' hen hset hle httl
    unfold set at hset
    rw [if_pos hen] at hset
    cases hev : evictOldest c.maxSize c.entries with
    | none =>
      rw [hev] at hset
      exact Option.noConfusion hset
    | some es =>
      rw [hev] at hset
      dsimp only at hset
      rw [← Option.some.inj hset]
      unfold get
      rw [if_pos hen, mapFind_mapSet_self]
      dsimp only
      rw [if_neg (show ¬ c.ttl < t' - t by omega)]
  · intro c k e t hen hnd hfind httl
    unfold get
    rw [if_pos hen]
    simp only [hfind]
    rw [if_pos httl]
    exact ⟨rfl, mapFind_mapDelete_self k c.entries hnd⟩

/-- C7 witness: the round-trip half applied to storing 42 under key 1 at
time 0 in a fresh enabled cache and reading it at time 50 (TTL 100), and
the expiry half applied to reading that entry at time 200. -/
theorem c7_roundtrip_and_expiry_witness :
    (get (⟨[(1, ⟨42, 0⟩)], true, 10, 100⟩ : CacheState Nat) 50 1).1 = some 42 ∧
    ((get (⟨[(1, ⟨42, 0⟩)], true, 10, 100⟩ : CacheState Nat) 200 1).1 = none ∧
      mapFind ((get (⟨[(1, ⟨42, 0⟩)], true, 10, 100⟩ : CacheState Nat) 200 1).2).entries 1
        = none) := by
  constructor
  · exact c7_roundtrip_and_expiry.1 ⟨[], true, 10, 100⟩ 1 42 0 50
      ⟨[(1, ⟨42, 0⟩)], true, 10, 100⟩ rfl
      (by simp [set, evictOldest, mapSet]) (by omega) (by decide)
  · exact c7_roundtrip_and_expiry.2 ⟨[(1, ⟨42, 0⟩)], true, 10, 100⟩ 1 ⟨42, 0⟩ 200
      rfl (by decide) rfl (by decide)

theorem evictOldest_full (maxSize : Nat) (es : List (Nat × Entry V))
    (hlen : es.length = maxSize) (hpos : 1 ≤ maxSize) :
    evictOldest maxSize es = some es.tail := by
  cases es with
  | nil =>
    simp at hlen
    omega
  | cons x rest =>
    rw [evictOldest.eq_def, if_pos (by omega)]
    dsimp only
    rw [evictOldest.eq_def,
      if_neg (by simp only [List.length_cons] at hlen; omega)]
    rfl

end GenCache

namespace CacheMgr

theorem accessPatterns_keys_sublist (entries : List (Nat × StoredVal)) :
    ((accessPatterns entries).map Prod.fst).Sublist (entries.map Prod.fst) := by
  induction entries with
  | nil => simp [accessPatterns]
  | cons p rest ih =>
    simp only [accessPatterns, List.filterMap_cons, List.map_cons] at *
    cases ht : truthyCount p.2 with
    | none =>
      simp only [Option.map_none']
      exact ih.cons p.1
    | some n =>
      simp only [Option.map_some', List.map_cons]
      exact ih.cons₂ p.1

theorem c6_no_inversion (entries : List (Nat × StoredVal)) (p q : Nat × Nat)
    (hnd : (entries.map Prod.fst).Nodup)
    (hp : p ∈ accessPatterns entries) (hq : q ∈ accessPatterns entries)
    (hpr : p.1 ∈ removedKeys entries) (hqr : q.1 ∉ removedKeys entries) :
    p.2 ≤ q.2 := by
  have hperm : (List.insertionSort leCount (accessPatterns entries)).Perm
      (accessPatterns entries) := List.perm_insertionSort leCount (accessPatterns entries)
  have hsorted : List.Sorted leCount
      (List.insertionSort leCount (accessPatterns entries)) :=
    List.sorted_insertionSort leCount (accessPatterns entries)
  set S := List.insertionSort leCount (accessPatterns entries) with hS
  set rc := 3 * (S.map Prod.fst).length / 10 with hrc
  have hrem : removedKeys entries = (S.take rc).map Prod.fst := by
    rw [removedKeys, List.map_take]
  have hndS : (S.map Prod.fst).Nodup := by
    have h1 : ((accessPatterns entries).map Prod.fst).Nodup :=
      (accessPatterns_keys_sublist entries).nodup hnd
    exact ((hperm.map Prod.fst).nodup_iff).mpr h1
  have hpS : p ∈ S := hperm.mem_iff.mpr hp
  have hqS : q ∈ S := hperm.mem_iff.mpr hq
  rw [hrem] at hpr hqr
  obtain ⟨p', hp'take, hp'1⟩ := List.mem_map.mp hpr
  have hp'S : p' ∈ S := List.take_subset rc S hp'take
  have hpp' : p' = p := List.inj_on_of_nodup_map hndS hp'S hpS hp'1
  have hq_drop : q ∈ S.drop rc := by
    have : q ∈ S.take rc ++ S.drop rc := by
      rw [List.take_append_drop]
      exact hqS
    rcases List.mem_append.mp this with h | h
    · exact absurd (List.mem_map_of_mem Prod.fst h) hqr
    · exact h
  have hsorted' : List.Pairwise leCount (S.take rc ++ S.drop rc) := by
    rw [List.take_append_drop]
    exact hsorted
  have h3 := (List.pairwise_append.mp hsorted').2.2
  exact h3 p (hpp' ▸ hp'take) q hq_drop

/-- C6 counterexample: (i) a CacheManager cache holding 11 entries with
maxKeys 10 (count exceeding capacity), five of which carry an access count:
the one cleanCache pass removes a single entry, leaving 10 entries, still
above the 7-entry high-water mark (70 % of capacity); (ii) the generic
Cache at maxSize 3: one further set evicts exactly one entry — the oldest
by insertion, ignoring access counts — leaving 3 entries, again above the
2-entry high-water mark, i.e. eviction is one entry per insert, not a bulk
pass down to 70 %. -/
theorem c6_eviction_not_to_high_water :
    ((CacheMgr.cleanCache 10 ((List.range 11).map
          (fun i => (i, ⟨if i % 2 == 1 then some 1 else none⟩)))).length = 10 ∧
      10 * 10 > 7 * 10) ∧
    ((GenCache.set (⟨[(0, ⟨0, 0⟩), (1, ⟨1, 0⟩), (2, ⟨2, 0⟩)], true, 3, 1000⟩ :
          GenCache.CacheState Nat) 5 100 7).map (fun c => c.entries.length)
        = some 3 ∧
      (GenCache.set (⟨[(0, ⟨0, 0⟩), (1, ⟨1, 0⟩), (2, ⟨2, 0⟩)], true, 3, 1000⟩ :
          GenCache.CacheState Nat) 5 100 7).map
          (fun c => GenCache.mapFind c.entries 0) = some none ∧
      (GenCache.set (⟨[(0, ⟨0, 0⟩), (1, ⟨1, 0⟩), (2, ⟨2, 0⟩)], true, 3, 1000⟩ :
          GenCache.CacheState Nat) 5 100 7).map
          (fun c => GenCache.mapFind c.entries 1) = some (some ⟨1, 0⟩) ∧
      10 * 3 > 7 * 3) := by
  have hset : GenCache.set (⟨[(0, ⟨0, 0⟩), (1, ⟨1, 0⟩), (2, ⟨2, 0⟩)], true, 3, 1000⟩ :
      GenCache.CacheState Nat) 5 100 7
      = some ⟨[(1, ⟨1, 0⟩), (2, ⟨2, 0⟩), (100, ⟨7, 5⟩)], true, 3, 1000⟩ := by
    rw [GenCache.set]
    rw [if_pos rfl]
    rw [GenCache.evictOldest_full 3 _ (by decide) (by decide)]
    rfl
  refine ⟨⟨by decide, by decide⟩, ?_, ?_, ?_, by decide⟩ <;>
    rw [hset] <;> rfl

/-- C6 amended: cleanCache is a no-op at or below 70 % of capacity, and
above it performs one bulk pass that deletes 30 % of the keys carrying an
access count, lowest counts first — among counted entries no higher-count
entry is evicted while a lower-count one is retained — but this pass need
not bring the entry count down to the high-water mark (entries without an
access count are never evicted); set of the generic Cache instead evicts
exactly one entry per insert when full, the oldest-inserted one, with no
access-count policy. -/
theorem c6_eviction_policy :
    (∀ (maxKeys : Nat) (entries : List (Nat × StoredVal)),
        10 * entries.length ≤ 7 * maxKeys →
        cleanCache maxKeys entries = entries) ∧
    (∀ (entries : List (Nat × StoredVal)) (p q : Nat × Nat),
        (entries.map Prod.fst).Nodup →
        p ∈ accessPatterns entries → q ∈ accessPatterns entries →
        p.1 ∈ removedKeys entries → q.1 ∉ removedKeys entries →
        p.2 ≤ q.2) ∧
    (∀ (V : Type) (c : GenCache.CacheState V) (t k : Nat) (v : V),
        c.enabled = true → c.entries.length = c.maxSize → 1 ≤ c.maxSize →
        GenCache.set c t k v
          = some { c with entries := GenCache.mapSet c.entries.tail k ⟨v, t⟩ }) := by
  refine ⟨?_, ?_, ?_⟩
  · intro maxKeys entries h
    rw [cleanCache, if_pos h]
  · exact c6_no_inversion
  · intro V c t k v hen hlen hpos
    rw [GenCache.set, if_pos hen, GenCache.evictOldest_full c.maxSize c.entries hlen hpos]

/-- C6 witness: the amended theorem applied to a below-threshold state, to
a counted pair (the removed key 1 with count 1, the retained key 2 with
count 2) in a four-entry all-counted cache, and to a full two-entry generic
cache absorbing one insert. -/
theorem c6_eviction_policy_witness :
    cleanCache 10 [(1, ⟨some 1⟩)] = [(1, ⟨some 1⟩)] ∧
    (1 : Nat) ≤ 2 ∧
    GenCache.set (⟨[(0, ⟨5, 0⟩), (1, ⟨6, 0⟩)], true, 2, 50⟩ :
        GenCache.CacheState Nat) 3 7 9
      = some ⟨[(1, ⟨6, 0⟩), (7, ⟨9, 3⟩)], true, 2, 50⟩ := by
  refine ⟨?_, ?_, ?_⟩
  · exact c6_eviction_policy.1 10 [(1, ⟨some 1⟩)] (by decide)
  · exact c6_eviction_policy.2.1
      [(1, ⟨some 1⟩), (2, ⟨some 2⟩), (3, ⟨some 3⟩), (4, ⟨some 4⟩)]
      (1, 1) (2, 2) (by decide) (by decide) (by decide) (by decide) (by decide)
  · have h := c6_eviction_policy.2.2 Nat
      (⟨[(0, ⟨5, 0⟩), (1, ⟨6, 0⟩)], true, 2, 50⟩ : GenCache.CacheState Nat)
      3 7 9 rfl (by decide) (by decide)
    rw [h]
    rfl

/-- C8 counterexample: a filter set whose serialization faults (a BigInt
value) makes CacheManager.get raise the TypeError to the caller instead of
absorbing it as a miss: generateKey runs before the try block. -/
theorem c8_serialization_fault_raises :
    cmGet "q" (.jbigint 1) (fun _ => Except.ok (none : Option Nat))
        (fun _ => Except.ok ()) (fun _ _ => Except.ok ()) none
      = Except.error ("TypeError: Do not know how to serialize a BigInt") := rfl

/-- C8 amended: every fault raised inside CacheManager.get's try block —
cache lookup, metadata update, the fetch function, or the store — is
absorbed and the call returns a value or null without raising; but
generateKey (the JSON serialization of query and filters) runs before the
try block, and a fault there propagates to the caller. -/
theorem c8_try_block_absorbs_faults {V : Type} (query : String) (filters : JVal)
    (lookup : String × JVal → Except String (Option V))
    (metaUpdate : String × JVal → Except String Unit)
    (store : String × JVal → V → Except String Unit)
    (fetch : Option (Except String V)) :
    (∀ key, generateKey query filters = .ok key →
        ∃ o, cmGet query filters lookup metaUpdate store fetch = .ok o) ∧
    (∀ e, generateKey query filters = .error e →
        cmGet query filters lookup metaUpdate store fetch = .error e) := by
  constructor
  · intro key hk
    unfold cmGet
    rw [hk]
    exact ⟨_, rfl⟩
  · intro e he
    unfold cmGet
    rw [he]

/-- C8 witness: the amended theorem applied to a faulting cache lookup on a
serializable request: the fault is absorbed and the caller receives a
non-raising result. -/
theorem c8_try_block_absorbs_faults_witness :
    ∃ o, cmGet "q" JVal.jnull (fun _ => Except.error ("lookup blew up") :
        String × JVal → Except String (Option Nat))
      (fun _ => Except.ok ()) (fun _ _ => Except.ok ()) none = Except.ok o :=
  (c8_try_block_absorbs_faults "q" JVal.jnull
    (fun _ => Except.error ("lookup blew up"))
    (fun _ => Except.ok ()) (fun _ _ => Except.ok ()) none).1
    ("q", JVal.jnull) rfl

end CacheMgr

namespace Pool

theorem nodup_append_single {l : List Nat} {a : Nat} (h : l.Nodup) (ha : a ∉ l) :
    (l ++ [a]).Nodup := by
  rw [List.nodup_append]
  refine ⟨h, List.nodup_singleton a, fun x hx hx' => ?_⟩
  rw [List.mem_singleton] at hx'
  exact ha (hx' ▸ hx)

theorem getLast_not_mem_dropLast {l : List Nat} (h : l.Nodup) (hne : l ≠ []) :
    l.getLast hne ∉ l.dropLast := by
  intro hmem
  have heq := List.dropLast_append_getLast hne
  rw [← heq, List.nodup_append] at h
  exact h.2.2 hmem (List.mem_singleton_self _)

theorem createWorker_Inv {s : PoolState} (h : Inv s) : Inv (createWorker s) := by
  obtain ⟨hw, hnd, hfree, hlt, hexec⟩ := h
  refine ⟨hw, ?_, ?_, ?_, ?_⟩
  · exact nodup_append_single hnd (fun hmem => by
      have := hlt _ hmem
      omega)
  · intro v hv p hp
    rcases List.mem_append.mp hv with hv | hv
    · exact hfree v hv p hp
    · rw [List.mem_singleton] at hv
      subst hv
      have := hexec p hp
      omega
  · intro v hv
    rcases List.mem_append.mp hv with hv | hv
    · have := hlt v hv
      show v < s.nextWorkerId + 1
      omega
    · rw [List.mem_singleton] at hv
      subst hv
      show s.nextWorkerId < s.nextWorkerId + 1
      omega
  · intro p hp
    have := hexec p hp
    show p.1 < s.nextWorkerId + 1
    omega

theorem processNextTask_Inv (cfg : Config) {s : PoolState} (h : Inv s) :
    Inv (processNextTask cfg s) := by
  obtain ⟨hw, hnd, hfree, hlt, hexec⟩ := h
  unfold processNextTask
  cases hq : s.taskQueue with
  | nil => exact ⟨hw, hnd, hfree, hlt, hexec⟩
  | cons t ts =>
    cases hi : s.idleWorkers with
    | nil => exact ⟨hw, hnd, hfree, hlt, hexec⟩
    | cons i is =>
      rw [hi] at hnd hfree hlt
      have hndi : ((i :: is).dropLast).Nodup :=
        hnd.sublist (List.dropLast_sublist (i :: is))
      have hsub : ∀ v ∈ (i :: is).dropLast, v ∈ i :: is :=
        fun v hv => (List.dropLast_sublist (i :: is)).subset hv
      dsimp only
      by_cases hreg : cfg.registered t.ttype = true
      · rw [if_pos hreg]
        refine ⟨hw, hndi, ?_, ?_, ?_⟩
        · intro v hv p hp
          rcases List.mem_cons.mp hp with hp | hp
          · subst hp
            dsimp only
            intro hcontra
            exact getLast_not_mem_dropLast hnd (List.cons_ne_nil i is)
              (hcontra ▸ hv)
          · exact hfree v (hsub v hv) p hp
        · intro v hv
          exact hlt v (hsub v hv)
        · intro p hp
          rcases List.mem_cons.mp hp with hp | hp
          · subst hp
            exact hlt _ (List.getLast_mem (List.cons_ne_nil i is))
          · exact hexec p hp
      · rw [if_neg hreg]
        refine ⟨hw, hndi, ?_, ?_, hexec⟩
        · intro v hv p hp
          exact hfree v (hsub v hv) p hp
        · intro v hv
          exact hlt v (hsub v hv)

theorem workerMessage_Inv (cfg : Config) (w : Nat) (e : Bool) {s : PoolState}
    (h : Inv s) : Inv (workerMessage cfg w e s) := by
  obtain ⟨hw, hnd, hfree, hlt, hexec⟩ := h
  unfold workerMessage
  cases hex : execOf s w with
  | none => exact ⟨hw, hnd, hfree, hlt, hexec⟩
  | some tid =>
    obtain ⟨pr, hfind, hsnd⟩ : ∃ pr, s.executing.find? (fun p => p.1 == w) = some pr
        ∧ pr.2 = tid := by
      unfold execOf at hex
      cases hf : s.executing.find? (fun p => p.1 == w) with
      | none => rw [hf] at hex; cases hex
      | some pr => rw [hf] at hex; exact ⟨pr, rfl, Option.some.inj hex⟩
    have hpr1 : pr.1 = w := by simpa using List.find?_some hfind
    have hprmem : pr ∈ s.executing := List.mem_of_find?_eq_some hfind
    have hfsub : ∀ p ∈ s.executing.filter (fun p => p.1 != w), p ∈ s.executing :=
      fun p hp => List.mem_of_mem_filter hp
    have hfne : ∀ p ∈ s.executing.filter (fun p => p.1 != w), p.1 ≠ w :=
      fun p hp => by simpa using List.of_mem_filter hp
    dsimp only
    by_cases hfound : ((s.taskQueue.find? (fun t => t.id == tid)).isSome) = true
    · rw [if_pos hfound]
      apply processNextTask_Inv
      have hwid : w ∉ s.idleWorkers := fun hc => hfree w hc pr hprmem hpr1
      refine ⟨hw, nodup_append_single hnd hwid, ?_, ?_, ?_⟩
      · intro v hv p hp
        rcases List.mem_append.mp hv with hv | hv
        · exact hfree v hv p (hfsub p hp)
        · rw [List.mem_singleton] at hv
          subst hv
          exact hfne p hp
      · intro v hv
        rcases List.mem_append.mp hv with hv | hv
        · exact hlt v hv
        · rw [List.mem_singleton] at hv
          subst hv
          exact hpr1 ▸ hexec pr hprmem
      · intro p hp
        exact hexec p (hfsub p hp)
    · rw [if_neg hfound]
      refine ⟨hw, hnd, ?_, hlt, ?_⟩
      · intro v hv p hp
        exact hfree v hv p (hfsub p hp)
      · intro p hp
        exact hexec p (hfsub p hp)

theorem timeoutFire_Inv (w tid : Nat) {s : PoolState} (h : Inv s) :
    Inv (timeoutFire w tid s) := by
  obtain ⟨hw, hnd, hfree, hlt, hexec⟩ := h
  unfold timeoutFire
  by_cases hmem : (w, tid) ∈ s.timers
  · rw [if_pos hmem]
    by_cases hfound : ((s.taskQueue.find? (fun t => t.id == tid)).isSome) = true
    · rw [if_pos hfound]
      unfold handleWorkerError
      apply createWorker_Inv
      refine ⟨by rw [hw]; rfl, hnd.erase w, ?_, ?_, hexec⟩
      · intro v hv p hp
        exact hfree v (List.mem_of_mem_erase hv) p hp
      · intro v hv
        exact hlt v (List.mem_of_mem_erase hv)
    · rw [if_neg hfound]
      exact ⟨hw, hnd, hfree, hlt, hexec⟩
  · rw [if_neg hmem]
    exact ⟨hw, hnd, hfree, hlt, hexec⟩

theorem cleanupLoop_noop (cfg : Config) (fuel : Nat) {s : PoolState}
    (hw : s.workers = []) : cleanupLoop cfg fuel s = s := by
  cases fuel with
  | zero => rfl
  | succ n =>
    unfold cleanupLoop
    cases hi : s.idleWorkers with
    | nil => rfl
    | cons i is =>
      dsimp only
      rw [if_neg (show ¬ cfg.minWorkers < s.workers.length by rw [hw]; simp)]

theorem cleanupIdleWorkers_noop (cfg : Config) {s : PoolState}
    (hw : s.workers = []) : cleanupIdleWorkers cfg s = s :=
  cleanupLoop_noop cfg _ hw

theorem executeTask_Inv (cfg : Config) (t : Task) {s : PoolState} (h : Inv s) :
    Inv (executeTask cfg t s) := by
  obtain ⟨hw, hnd, hfree, hlt, hexec⟩ := h
  unfold executeTask
  apply processNextTask_Inv
  by_cases hcond : ({ s with taskQueue := s.taskQueue ++ [t]} :
      PoolState).idleWorkers = []
      ∧ ({ s with taskQueue := s.taskQueue ++ [t]} : PoolState).workers.length
        < cfg.maxWorkers
  · rw [if_pos hcond]
    exact createWorker_Inv ⟨hw, hnd, hfree, hlt, hexec⟩
  · rw [if_neg hcond]
    exact ⟨hw, hnd, hfree, hlt, hexec⟩

theorem step_Inv (cfg : Config) {s : PoolState} (ev : Event) (h : Inv s) :
    Inv (step cfg s ev) := by
  cases ev with
  | exec t => exact executeTask_Inv cfg t h
  | message w e => exact workerMessage_Inv cfg w e h
  | timeout w tid => exact timeoutFire_Inv w tid h
  | cleanup =>
    show Inv (cleanupIdleWorkers cfg s)
    rw [cleanupIdleWorkers_noop cfg h.1]
    exact h

theorem Inv_emptyState : Inv emptyState := by
  refine ⟨rfl, List.nodup_nil, ?_, ?_, ?_⟩
  · intro v hv
    cases hv
  · intro v hv
    cases hv
  · intro p hp
    cases hp

theorem Inv_foldl_createWorker :
    ∀ (l : List Nat) {s : PoolState}, Inv s →
      Inv (l.foldl (fun s _ => createWorker s) s) := by
  intro l
  induction l with
  | nil =>
    intro s h
    exact h
  | cons x xs ih =>
    intro s h
    exact ih (createWorker_Inv h)

theorem Inv_initState (cfg : Config) : Inv (initState cfg) :=
  Inv_foldl_createWorker (List.range cfg.minWorkers) Inv_emptyState

theorem Inv_foldl_step (cfg : Config) :
    ∀ (evs : List Event) {s : PoolState}, Inv s → Inv (evs.foldl (step cfg) s) := by
  intro evs
  induction evs with
  | nil =>
    intro s h
    exact h
  | cons e es ih =>
    intro s h
    exact ih (step_Inv cfg e h)

theorem Inv_run (cfg : Config) (evs : List Event) : Inv (run cfg evs) :=
  Inv_foldl_step cfg evs (Inv_initState cfg)

/-- C1: the busy-worker bound fails on the code.  With minWorkers 1 and
maxWorkers 1, two executeTask submissions with no completion in between
leave 2 workers simultaneously busy (dispatched and not yet returned to the
idle set) although maxWorkers = 1, and a second worker was created
(nextWorkerId = 2) instead of the task waiting in the queue: the
`workers.length < maxWorkers` guard compares against the always-empty
workers list. -/
theorem c1_busy_exceeds_max :
    (run (mkConfig (some 1) (some 1) (fun _ => true))
        [.exec ⟨1, 0⟩, .exec ⟨2, 0⟩]).busy.length = 2 ∧
    (mkConfig (some 1) (some 1) (fun _ => true)).maxWorkers = 1 ∧
    (run (mkConfig (some 1) (some 1) (fun _ => true))
        [.exec ⟨1, 0⟩, .exec ⟨2, 0⟩]).nextWorkerId = 2 :=
  ⟨rfl, rfl, rfl⟩

/-- C2 counterexample: in the pool state reached by two submissions with no
completion in between, the queued head task (id 1) has been dispatched to
both worker 0 and worker 1 simultaneously — processNextTask dispatches
taskQueue[0] without dequeuing it. -/
theorem c2_same_task_on_two_workers :
    execOf (run (mkConfig (some 1) (some 1) (fun _ => true))
        [.exec ⟨1, 0⟩, .exec ⟨2, 0⟩]) 0 = some 1 ∧
    execOf (run (mkConfig (some 1) (some 1) (fun _ => true))
        [.exec ⟨1, 0⟩, .exec ⟨2, 0⟩]) 1 = some 1 :=
  ⟨rfl, rfl⟩

/-- C2 amended: the second half of the claim holds — in every reachable
pool state the idle-worker list never contains a worker currently executing
a task — while the first half fails: a task is not removed from the queue
at dispatch, so the queue head can be dispatched to two workers at once
(see the counterexample). -/
theorem c2_idle_workers_not_executing (cfg : Config) (evs : List Event)
    (w : Nat) (hw : w ∈ (run cfg evs).idleWorkers) :
    execOf (run cfg evs) w = none := by
  have hInv := Inv_run cfg evs
  have hfind : (run cfg evs).executing.find? (fun p => p.1 == w) = none :=
    List.find?_eq_none.mpr (fun p hp => by
      simpa using hInv.2.2.1 w hw p hp)
  unfold execOf
  rw [hfind]
  rfl

/-- C2 witness: the amended theorem applied to the freshly constructed
default pool, whose worker 0 is idle and runs nothing. -/
theorem c2_idle_workers_not_executing_witness :
    0 ∈ (run (mkConfig none none (fun _ => true)) []).idleWorkers ∧
    execOf (run (mkConfig none none (fun _ => true)) []) 0 = none :=
  ⟨by decide,
    c2_idle_workers_not_executing (mkConfig none none (fun _ => true)) [] 0
      (by decide)⟩

/-- C9: shutdown terminates no worker.  On a freshly initialized pool with
minWorkers 1 the task queue is empty, so the polling loop of shutdown exits at
once; it then terminates only the members of the always-empty `workers`
list and clears both lists: worker 0, created at initialization, is still
alive after shutdown resolves. -/
theorem c9_shutdown_terminates_no_worker :
    (initState (mkConfig (some 1) (some 1) (fun _ => true))).taskQueue = [] ∧
    (initState (mkConfig (some 1) (some 1) (fun _ => true))).alive = [0] ∧
    (shutdown (initState (mkConfig (some 1) (some 1) (fun _ => true)))).alive
        = [0] ∧
    (shutdown (initState (mkConfig (some 1) (some 1) (fun _ => true)))).idleWorkers
        = [] :=
  ⟨rfl, rfl, rfl, rfl⟩

/-- C10: in every reachable pool state (any option resolution, any script
registry, any event sequence) the internal workers list is empty; hence the
`workers.length < maxWorkers` guard of executeTask always passes, the
`workers.length > minWorkers` condition of cleanupIdleWorkers is never
satisfied, and getMetrics reports activeWorkers = 0 - idleWorkers.length, a
non-positive number. -/
theorem c10_workers_list_always_empty (mo Mo : Option Nat) (reg : Nat → Bool)
    (evs : List Event) :
    (run (mkConfig mo Mo reg) evs).workers = [] ∧
    (run (mkConfig mo Mo reg) evs).workers.length
        < (mkConfig mo Mo reg).maxWorkers ∧
    ¬ ((mkConfig mo Mo reg).minWorkers
        < (run (mkConfig mo Mo reg) evs).workers.length) ∧
    (getMetrics (run (mkConfig mo Mo reg) evs)).activeWorkers
        = -(((run (mkConfig mo Mo reg) evs).idleWorkers.length : Int)) ∧
    (getMetrics (run (mkConfig mo Mo reg) evs)).activeWorkers ≤ 0 := by
  have hw := (Inv_run (mkConfig mo Mo reg) evs).1
  have hmax : 0 < (mkConfig mo Mo reg).maxWorkers := by
    show 0 < jsOr Mo 4
    unfold jsOr
    cases Mo with
    | none => simp
    | some n =>
      by_cases h : n = 0
      · simp [h]
      · simp [h]
        omega
  refine ⟨hw, ?_, ?_, ?_, ?_⟩
  · rw [hw]
    simpa using hmax
  · rw [hw]
    simp
  · unfold getMetrics
    rw [hw]
    simp
  · unfold getMetrics
    rw [hw]
    simp

end Pool
